import Mathlib

/-!
# Verification of the stocklearn engine-integration layer

Shallow embedding of the Stockfish integration core of the `stocklearn`
repository (`src/backend/src/services/stockfish.service.ts`, the full
class version defining `getEngineConfig`, `getWeakenedMove`,
`getEngineBestMove`, `evaluatePosition`, `getTopMoves`, and the
command queue built from `processQueue` / `finishProcessing` / the
`close`-handler of `startEngine`), together with the move analysis
route `POST /api/games/:id/analyze` (the unnamed Express source file).

JavaScript numbers are modelled as exact rationals (`ℚ`); all constants
appearing in the code (`0.70`, `0.65`, thresholds `-3`, `-1.5`, `-0.5`,
`0.5`, mate saturation `±100`) are exactly representable.  Engine output
lines are modelled by the result of the regular-expression extractions
the code performs on each line.  The event-driven queue is modelled as an
explicit state machine whose actions are the callbacks that can fire
(`submit`, `uciok`, a terminal `bestmove` chunk, a timeout timer firing,
process death, the scheduled restart).
-/

namespace Stocklearn

/-! ## Strength model: `getEngineConfig` (stockfish.service.ts lines 163-191) -/

structure StrengthConfig where
  useRandomWeakening : Bool
  sfSkillLevel : Nat
  uciLimitStrength : Bool
  uciElo : ℚ
  depth : Nat
  moveTime : Nat
  randomMoveProbability : ℚ
  deriving DecidableEq, Repr

/-- `getEngineConfig(elo)`: clamp to 500..3200; at or above 1350 use native
UCI strength limiting, below it use the statistical weakening policy with
`randomMoveProbability = 0.70 - (clampedElo - 500) * 0.65 / 850`. -/
def getEngineConfig (elo : ℚ) : StrengthConfig :=
  let clampedElo := max 500 (min 3200 elo)
  if 1350 ≤ clampedElo then
    { useRandomWeakening := false
      sfSkillLevel := 20
      uciLimitStrength := true
      uciElo := clampedElo
      depth := 0
      moveTime := 2000
      randomMoveProbability := 0 }
  else
    { useRandomWeakening := true
      sfSkillLevel := 0
      uciLimitStrength := false
      uciElo := 1320
      depth := 4
      moveTime := 200
      randomMoveProbability := 0.70 - (clampedElo - 500) * 0.65 / 850 }

/-! ## Move classifier (analyze route, unnamed source, lines 523-539) -/

inductive Classification where
  | blunder
  | mistake
  | inaccuracy
  | brilliant
  | good
  deriving DecidableEq, Repr

/-- The classification chain of the analyze route:
`if (evalDiff < -3) 'blunder' else if (evalDiff < -1.5) 'mistake'
else if (evalDiff < -0.5) 'inaccuracy' else if (evalDiff > 0.5) 'brilliant'`,
default `'good'`. -/
def classifyDelta (d : ℚ) : Classification :=
  if d < -3 then .blunder
  else if d < -1.5 then .mistake
  else if d < -0.5 then .inaccuracy
  else if d > 0.5 then .brilliant
  else .good

/-! ## Weakened move selection (`getWeakenedMove`, lines 234-256) -/

structure LegalMove where
  /-- `m.from` in chess.js -/
  fromSq : String
  /-- `m.to` -/
  toSq : String
  /-- `m.captured`: the captured piece letter when the move is a capture -/
  captured : Option String
  /-- `m.promotion` -/
  promotion : Option String
  deriving DecidableEq, Repr

/-- `let weight = 1; if (m.captured) weight += 0.5`. -/
def moveWeight (m : LegalMove) : ℚ :=
  1 + (if m.captured.isSome then 0.5 else 0)

/-- `weighted.reduce((sum, w) => sum + w.weight, 0)`. -/
def totalWeight (ms : List LegalMove) : ℚ :=
  (ms.map moveWeight).sum

/-- The selection loop: `for (const w of weighted) { r -= w.weight; if (r <= 0) return ... }`.
Returns `none` exactly when the loop falls through to the trailing fallback. -/
def pickWeighted (r : ℚ) : List LegalMove → Option LegalMove
  | [] => none
  | m :: ms =>
    if r - moveWeight m ≤ 0 then some m else pickWeighted (r - moveWeight m) ms

/-- `w.move.from + w.move.to + (w.move.promotion || '')`. -/
def moveUci (m : LegalMove) : String :=
  m.fromSq ++ m.toSq ++ m.promotion.getD ""

lemma one_le_moveWeight (m : LegalMove) : 1 ≤ moveWeight m := by
  unfold moveWeight
  split <;> norm_num

lemma totalWeight_pos {ms : List LegalMove} (h : ms ≠ []) : 0 < totalWeight ms := by
  cases ms with
  | nil => exact absurd rfl h
  | cons m ms =>
    have h1 := one_le_moveWeight m
    have h2 : 0 ≤ (ms.map moveWeight).sum := by
      apply List.sum_nonneg
      intro x hx
      rcases List.mem_map.mp hx with ⟨m', _, rfl⟩
      linarith [one_le_moveWeight m']
    simp only [totalWeight, List.map_cons, List.sum_cons]
    linarith

lemma pickWeighted_mem_of_lt {ms : List LegalMove} {r : ℚ}
    (hne : ms ≠ []) (hr : r < totalWeight ms) :
    ∃ m, pickWeighted r ms = some m ∧ m ∈ ms := by
  induction ms generalizing r with
  | nil => exact absurd rfl hne
  | cons m ms ih =>
    by_cases hstop : r - moveWeight m ≤ 0
    · exact ⟨m, by simp [pickWeighted, hstop], List.mem_cons_self m ms⟩
    · cases ms with
      | nil =>
        exfalso
        simp only [totalWeight, List.map_cons, List.map_nil, List.sum_cons,
          List.sum_nil, add_zero] at hr
        exact hstop (by linarith)
      | cons m' ms' =>
        have hr' : r - moveWeight m < totalWeight (m' :: ms') := by
          simp only [totalWeight, List.map_cons, List.sum_cons] at hr ⊢
          linarith
        rcases ih (by simp) hr' with ⟨mw, hpick, hmem⟩
        refine ⟨mw, ?_, List.mem_cons_of_mem _ hmem⟩
        rw [show pickWeighted r (m :: m' :: ms') =
          if r - moveWeight m ≤ 0 then some m
          else pickWeighted (r - moveWeight m) (m' :: ms') from rfl,
          if_neg hstop]
        exact hpick

/-! ## Protocol decoding

Each UCI output line is represented by the results of the substring tests
and regular-expression extractions the code performs on it:
`/score cp (-?\d+)/`, `/score mate (-?\d+)/`, `/multipv (\d+)/`,
`/ pv ([a-h][1-8][a-h][1-8][qrbn]?)/`, `/bestmove ([a-h][1-8][a-h][1-8][qrbn]?)/`,
plus `line.includes('info')`.  A `none` field means the substring test or
match fails on that line; for `bestMove` the outer option is
`line.includes('bestmove')` and the inner one the move-regex result. -/

structure EngineLine where
  hasInfo : Bool
  multipv : Option Nat
  pvMove : Option String
  cpScore : Option Int
  mateScore : Option Int
  bestMove : Option (Option String)
  deriving DecidableEq, Repr

/-! ## `evaluatePosition` line processing (lines 338-370) -/

structure EvalState where
  evaluation : ℚ
  mate : Option Int
  deriving DecidableEq, Repr

structure EvalResult where
  evaluation : ℚ
  bestMove : String
  mate : Option Int
  deriving DecidableEq, Repr

/-- One loop iteration of `evaluatePosition`'s `dataHandler` on a non-terminal
line: `score cp` sets `evaluation = parseInt(..)/100`; `score mate` sets
`mate` and saturates `evaluation` to `mate > 0 ? 100 : -100`. -/
def evalStep (st : EvalState) (l : EngineLine) : EvalState :=
  let st1 :=
    match l.cpScore with
    | some cp => { st with evaluation := (cp : ℚ) / 100 }
    | none => st
  match l.mateScore with
  | some m => { st1 with mate := some m, evaluation := if 0 < m then 100 else -100 }
  | none => st1

/-- The full `dataHandler` loop: lines are processed in order; the first line
containing `bestmove` resolves with the accumulated state (the `bestMove`
field stays `''` when the move regex fails).  `none` means no terminal line
arrived (the timeout path resolves separately). -/
def evalLoop (st : EvalState) : List EngineLine → Option EvalResult
  | [] => none
  | l :: ls =>
    let st' := evalStep st l
    match l.bestMove with
    | some mv => some { evaluation := st'.evaluation, bestMove := mv.getD "", mate := st'.mate }
    | none => evalLoop st' ls

/-- The timeout fallback of `evaluatePosition`:
`resolve({ evaluation: 0, bestMove: '', mate: undefined })`. -/
def evalTimeoutResult : EvalResult :=
  { evaluation := 0, bestMove := "", mate := none }

/-! ## `getTopMoves` line processing (lines 400-457) -/

structure TopEntry where
  move : String
  evaluation : ℚ
  mate : Option Int
  rank : Nat
  deriving DecidableEq, Repr

structure CandidateMove where
  move : String
  evaluation : ℚ
  mate : Option Int
  deriving DecidableEq, Repr

/-- The guard and extraction of one `info ... multipv ...` line in
`getTopMoves`: the line must contain `info`, `multipv` and a `score cp` or
`score mate`; then rank and move come from the `multipv`/` pv ` regexes,
the evaluation from `score cp` divided by 100, overridden by the mate
saturation when `score mate` is present. -/
def decodeTop (l : EngineLine) : Option TopEntry :=
  if l.hasInfo ∧ l.multipv.isSome ∧ (l.cpScore.isSome ∨ l.mateScore.isSome) then
    match l.multipv, l.pvMove with
    | some rank, some move =>
      let evaluation : ℚ :=
        match l.cpScore with
        | some cp => (cp : ℚ) / 100
        | none => 0
      let em : ℚ × Option Int :=
        match l.mateScore with
        | some m => (if 0 < m then 100 else -100, some m)
        | none => (evaluation, none)
      some { move := move, evaluation := em.1, mate := em.2, rank := rank }
    | _, _ => none
  else none

/-- `results.findIndex(r => r.rank === rank)` followed by
`results[existing] = entry` or `results.push(entry)`: replace the first
entry carrying this rank, or append. -/
def upsertTop (e : TopEntry) : List TopEntry → List TopEntry
  | [] => [e]
  | r :: rs => if r.rank = e.rank then e :: rs else r :: upsertTop e rs

/-- One loop iteration of `getTopMoves`' `dataHandler` on a line. -/
def topStep (results : List TopEntry) (l : EngineLine) : List TopEntry :=
  match decodeTop l with
  | some e => upsertTop e results
  | none => results

/-- `a.rank ≤ b.rank`, the comparator `(a, b) => a.rank - b.rank`. -/
def rankLE (a b : TopEntry) : Prop := a.rank ≤ b.rank

instance : DecidableRel rankLE := fun a b => Nat.decLe a.rank b.rank

instance : IsTotal TopEntry rankLE := ⟨fun a b => Nat.le_total a.rank b.rank⟩

instance : IsTrans TopEntry rankLE := ⟨fun _ _ _ => Nat.le_trans⟩

/-- `results.sort((a, b) => a.rank - b.rank)`: a comparison sort, ascending
by rank (ranks in `results` are pairwise distinct, so the result does not
depend on the sorting algorithm). -/
def sortByRank (results : List TopEntry) : List TopEntry :=
  List.insertionSort rankLE results

/-- `.map(({ rank, ...rest }) => rest)` after sorting. -/
def topFinalize (results : List TopEntry) : List CandidateMove :=
  (sortByRank results).map fun e => { move := e.move, evaluation := e.evaluation, mate := e.mate }

/-- The full `getTopMoves` `dataHandler` loop: the first `bestmove` line
resolves with the sorted, rank-stripped results (after first applying the
multipv update of that same line, which precedes the `bestmove` check). -/
def topLoop (results : List TopEntry) : List EngineLine → Option (List CandidateMove)
  | [] => none
  | l :: ls =>
    let results' := topStep results l
    if l.bestMove.isSome then some (topFinalize results') else topLoop results' ls

/-! ## The analyze route (unnamed source, lines 498-555)

For each played move the route records `evaluatePosition(positionAfter)`'s
raw score (the engine reports it from the perspective of the side to move
in the queried position) and classifies the move against the previous
entry's recorded score; `turn` is the side that made the move. -/

inductive Side where
  | white
  | black
  deriving DecidableEq, Repr

structure AnalysisEntry where
  evaluation : ℚ
  classification : Classification
  evalDiff : ℚ
  deriving DecidableEq, Repr

/-- The loop body of the analyze route: `evalDiff` is
`turn === 'w' ? evaluation - prev.evaluation : prev.evaluation - evaluation`
(computed only when the game has more than one move and a previous analysis
entry exists), classified by the threshold chain; the raw evaluation is
stored unchanged in the entry. -/
def analyzeStep (totalMoves : Nat) (analysis : List AnalysisEntry)
    (turn : Side) (evalAfter : ℚ) : List AnalysisEntry :=
  let cd : Classification × ℚ :=
    if 1 < totalMoves then
      match analysis.getLast? with
      | some prev =>
        let d := if turn = Side.white then evalAfter - prev.evaluation
                 else prev.evaluation - evalAfter
        (classifyDelta d, d)
      | none => (Classification.good, 0)
    else (Classification.good, 0)
  analysis ++ [{ evaluation := evalAfter, classification := cd.1, evalDiff := cd.2 }]

/-- The whole per-move analysis loop over the game's moves, each given as
(mover, raw engine evaluation of the position after the move). -/
def analyzeGame (plies : List (Side × ℚ)) : List AnalysisEntry :=
  plies.foldl (fun acc p => analyzeStep plies.length acc p.1 p.2) []

/-- Modelled from the spec: the perspective normalization of §4.5, which the
spec requires before any cross-ply differencing — the engine's raw score is
reported from the side to move of the queried position and must be negated
when that side is Black, so that all scores share the White perspective.
This normalization is absent from the analyze route's source. -/
def normalizeEval (sideToMove : Side) (raw : ℚ) : ℚ :=
  if sideToMove = Side.black then -raw else raw

/-- Modelled from the spec: the per-mover delta of §4.6 — the signed change
of the normalized (White-perspective) evaluation, flipped in sign when the
mover is Black. -/
def specMoverDelta (mover : Side) (prevNorm currNorm : ℚ) : ℚ :=
  if mover = Side.white then currNorm - prevNorm else -(currNorm - prevNorm)

/-! ## The command queue and supervisor (lines 74-153, 265-313, 321-336)

The class state (`stockfish`, `ready`, `processing`, `queue`) together
with the per-item artifacts created at dispatch time — the `data` listener
attached to the current process's stdout and the 10-second `setTimeout`
timer — is modelled explicitly.  Items are numbered in submission order.
Actions are the externally triggered callbacks: a caller invoking one of
the public operations (`submit`), the `uciok` handshake line, a stdout
chunk containing `bestmove` (`terminal`), a `setTimeout` timer firing
(`timer`), the `close` event of the process (`died`), and the scheduled
`startEngine` restart (`restart`).

Two modelling notes, both visible in the source:
* on `close`, only the *waiting* queue is flushed; a dispatched item's
  listener dies with the process but its timer is never cleared, so the
  timer survives into the restarted engine's lifetime;
* every completion path first computes/fixes the item's outcome, then
  calls `finishProcessing()` and only then invokes `resolve`/`reject`
  (settlement of a JS promise is observable strictly later anyway), so the
  outcome is logged at the point it is determined. -/

inductive Kind where
  | bestMoveReq
  | evalReq
  | topReq
  deriving DecidableEq, Repr

structure Item where
  id : Nat
  kind : Kind
  deriving DecidableEq, Repr

inductive Outcome where
  | resolvedMove (id : Nat) (mv : String)
  | rejectedNoBestMove (id : Nat)
  | resolvedEval (id : Nat) (r : EvalResult)
  | resolvedTop (id : Nat)
  | rejectedTimeout (id : Nat)
  | rejectedNotReady (id : Nat)
  | rejectedDied (id : Nat)
  deriving DecidableEq, Repr

def Outcome.itemId : Outcome → Nat
  | .resolvedMove i _ => i
  | .rejectedNoBestMove i => i
  | .resolvedEval i _ => i
  | .resolvedTop i => i
  | .rejectedTimeout i => i
  | .rejectedNotReady i => i
  | .rejectedDied i => i

inductive Ev where
  | dispatched (id : Nat)
  | out (o : Outcome)
  deriving DecidableEq, Repr

structure SfState where
  /-- `this.stockfish !== null` -/
  alive : Bool
  /-- `this.ready` -/
  ready : Bool
  /-- `this.processing` -/
  processing : Bool
  /-- submission counter: ids handed out so far -/
  nextId : Nat
  /-- `this.queue` -/
  queue : List Item
  /-- items whose `dataHandler` is attached to the current process's stdout -/
  handlers : List Item
  /-- items whose 10-second timeout timer is armed -/
  timers : List Item
  /-- the delay of a scheduled `startEngine` restart, if any -/
  pendingRestartMs : Option Nat
  /-- events in the order their outcomes are determined -/
  log : List Ev
  deriving DecidableEq, Repr

/-- The fixed restart backoff of the `close` handler: `setTimeout(..., 1000)`. -/
def restartBackoffMs : Nat := 1000

/-- `processQueue()`: closed form of the recursion.  If `processing` or the
queue is empty, do nothing.  If the engine is ready (`ensureEngine()`),
dispatch the head: mark `processing`, run the item's `command()` (which
attaches its listener and arms its timer) and stop.  Otherwise the code
rejects the head with `'Stockfish engine not ready'` and recurses, which
empties the whole queue. -/
def processQueue (s : SfState) : SfState :=
  if s.processing then s
  else if s.alive && s.ready then
    match s.queue with
    | [] => s
    | i :: rest =>
      { s with processing := true, queue := rest,
               handlers := s.handlers ++ [i], timers := s.timers ++ [i],
               log := s.log ++ [Ev.dispatched i.id] }
  else
    { s with queue := [],
             log := s.log ++ s.queue.map fun i => Ev.out (Outcome.rejectedNotReady i.id) }

/-- `finishProcessing()`: clear `processing` and rerun `processQueue`. -/
def finishProcessing (s : SfState) : SfState :=
  processQueue { s with processing := false }

/-- A public operation pushes its item and calls `processQueue()`. -/
def submitItem (s : SfState) (k : Kind) : SfState :=
  processQueue { s with queue := s.queue ++ [⟨s.nextId, k⟩], nextId := s.nextId + 1 }

/-- The `uciok` branch of the startup `data` handler (only a live process
produces output). -/
def uciokEv (s : SfState) : SfState :=
  if s.alive then { s with ready := true } else s

/-- Outcome of the timeout handler, by operation:
`getEngineBestMove` rejects `'Stockfish timeout'`; `evaluatePosition`
resolves `{ evaluation: 0, bestMove: '', mate: undefined }`; `getTopMoves`
resolves the partial results collected so far. -/
def timeoutOutcome (i : Item) : Outcome :=
  match i.kind with
  | .bestMoveReq => .rejectedTimeout i.id
  | .evalReq => .resolvedEval i.id evalTimeoutResult
  | .topReq => .resolvedTop i.id

/-- Outcome of the terminal `bestmove` handler, by operation; `mv` is the
result of the `bestmove` move regex, `er` the evaluation accumulated by the
`evaluatePosition` line loop. -/
def terminalOutcome (i : Item) (mv : Option String) (er : EvalResult) : Outcome :=
  match i.kind with
  | .bestMoveReq =>
    match mv with
    | some m => .resolvedMove i.id m
    | none => .rejectedNoBestMove i.id
  | .evalReq => .resolvedEval i.id er
  | .topReq => .resolvedTop i.id

/-- A timeout timer fires: remove the listener (a no-op when it was attached
to an already-dead process), determine the item's timeout outcome, then
`finishProcessing()`.  The timer itself is disarmed by firing. -/
def timerFire (s : SfState) (n : Nat) : SfState :=
  match s.timers.find? (fun i => i.id = n) with
  | none => s
  | some i =>
    finishProcessing
      { s with timers := s.timers.filter (fun j => ¬ j.id = n),
               handlers := s.handlers.filter (fun j => ¬ j.id = n),
               log := s.log ++ [Ev.out (timeoutOutcome i)] }

/-- One attached `dataHandler` sees a `bestmove` chunk: `clearTimeout`,
`removeListener`, outcome determined, `finishProcessing()`. -/
def fireHandler (mv : Option String) (er : EvalResult) (s : SfState) (i : Item) : SfState :=
  finishProcessing
    { s with timers := s.timers.filter (fun j => ¬ j.id = i.id),
             handlers := s.handlers.filter (fun j => ¬ j.id = i.id),
             log := s.log ++ [Ev.out (terminalOutcome i mv er)] }

/-- A stdout chunk containing `bestmove`: Node calls the listeners attached
at emission time, in attach order (listeners added during the emit are not
called for this chunk). -/
def terminalEv (s : SfState) (mv : Option String) (er : EvalResult) : SfState :=
  s.handlers.foldl (fireHandler mv er) s

/-- The `close` handler (lines 95-112): mark not-ready, drop the process
handle (with it, all attached stdout listeners), reject every *waiting*
queue item with `'Stockfish process died'`, clear `processing`, and
schedule `startEngine` after a 1000 ms backoff.  Pending timers of
dispatched items are not cleared. -/
def engineDied (s : SfState) : SfState :=
  if s.alive then
    { s with alive := false, ready := false, handlers := [],
             queue := [], processing := false,
             pendingRestartMs := some restartBackoffMs,
             log := s.log ++ s.queue.map fun i => Ev.out (Outcome.rejectedDied i.id) }
  else s

/-- The scheduled `startEngine()` runs: a fresh process, not yet ready;
no queued work is replayed. -/
def engineRestart (s : SfState) : SfState :=
  match s.pendingRestartMs with
  | some _ => { s with alive := true, ready := false, pendingRestartMs := none }
  | none => s

inductive Act where
  | submit (k : Kind)
  | uciok
  | terminal (mv : Option String) (er : EvalResult)
  | timer (n : Nat)
  | died
  | restart
  deriving DecidableEq, Repr

def stepAct (s : SfState) : Act → SfState
  | .submit k => submitItem s k
  | .uciok => uciokEv s
  | .terminal mv er => terminalEv s mv er
  | .timer n => timerFire s n
  | .died => engineDied s
  | .restart => engineRestart s

/-- The constructor: `startEngine()` spawns the process (not yet ready). -/
def initState : SfState :=
  { alive := true, ready := false, processing := false, nextId := 0,
    queue := [], handlers := [], timers := [], pendingRestartMs := none, log := [] }

def runActs (acts : List Act) : SfState :=
  acts.foldl stepAct initState

/-! ## The FIFO / single-flight log predicate -/

/-- Ids of items whose outcome has been determined, in log order. -/
def settledIds (log : List Ev) : List Nat :=
  log.filterMap fun e =>
    match e with
    | .out o => some o.itemId
    | _ => none

/-- Ids dispatched to the engine, in dispatch order. -/
def dispatchOrder (log : List Ev) : List Nat :=
  log.filterMap fun e =>
    match e with
    | .dispatched i => some i
    | _ => none

/-- Scan of the log checking that every dispatch happens only after every
earlier-submitted item (every smaller id — ids are handed out in submission
order) has completed, timed out or been flushed. -/
def checkPrior (settled : List Nat) : List Ev → Bool
  | [] => true
  | .dispatched j :: rest =>
    (List.range j).all (fun i => decide (i ∈ settled)) && checkPrior settled rest
  | .out o :: rest => checkPrior (o.itemId :: settled) rest

/-- The C1 property of a log: dispatches occur in strict submission order,
each one only after all earlier-submitted items have settled. -/
def FifoSingleFlight (log : List Ev) : Prop :=
  checkPrior [] log = true ∧ List.Sorted (· < ·) (dispatchOrder log)

/-! ## Helper facts about the strength model -/

lemma getEngineConfig_below (e : ℚ) (h : e < 1350) :
    getEngineConfig e =
      { useRandomWeakening := true, sfSkillLevel := 0, uciLimitStrength := false,
        uciElo := 1320, depth := 4, moveTime := 200,
        randomMoveProbability := 0.70 - (max 500 e - 500) * 0.65 / 850 } := by
  have h1 : min 3200 e = e := min_eq_right (by linarith)
  have h2 : ¬ (1350 : ℚ) ≤ max 500 e := by
    push_neg
    exact max_lt (by norm_num) h
  simp only [getEngineConfig, h1, if_neg h2]

/-! ## Claim theorems: strength model and classifier -/

/-- C5: for every requested rating whose clamped value is at or above the
native floor 1350, `getEngineConfig` disables random weakening, enables
`UCI_LimitStrength` with the clamped rating as `UCI_Elo`, uses full native
skill 20, and sets `randomMoveProbability` to 0. -/
theorem C5_native_strength (elo : ℚ) (h : 1350 ≤ max 500 (min 3200 elo)) :
    (getEngineConfig elo).useRandomWeakening = false ∧
    (getEngineConfig elo).uciLimitStrength = true ∧
    (getEngineConfig elo).uciElo = max 500 (min 3200 elo) ∧
    (getEngineConfig elo).sfSkillLevel = 20 ∧
    (getEngineConfig elo).randomMoveProbability = 0 := by
  simp only [getEngineConfig]
  rw [if_pos h]
  exact ⟨rfl, rfl, rfl, rfl, rfl⟩

/-- Witness for C5 at requested rating 2000. -/
theorem C5_witness :
    (1350 : ℚ) ≤ max 500 (min 3200 2000) ∧
    ((getEngineConfig 2000).useRandomWeakening = false ∧
     (getEngineConfig 2000).uciLimitStrength = true ∧
     (getEngineConfig 2000).uciElo = max 500 (min 3200 2000) ∧
     (getEngineConfig 2000).sfSkillLevel = 20 ∧
     (getEngineConfig 2000).randomMoveProbability = 0) :=
  ⟨by norm_num, C5_native_strength 2000 (by norm_num)⟩

/-- C6 counterexample: the requested ratings 300 and 400 are both strictly
below the floor, but clamping maps both to 500, so the computed
`randomMoveProbability` is equal for both — strict decrease in the
requested rating fails. -/
theorem C6_counterexample :
    (300 : ℚ) < 400 ∧ (400 : ℚ) < 1350 ∧
    ¬ (getEngineConfig 400).randomMoveProbability
        < (getEngineConfig 300).randomMoveProbability := by
  rw [getEngineConfig_below 300 (by norm_num), getEngineConfig_below 400 (by norm_num)]
  norm_num

/-- C6 amended: after clamping to 500..3200, every rating strictly below the
floor yields `randomMoveProbability` strictly inside (0, 1), and the
probability is strictly decreasing in the requested rating on the
sub-floor part of the supported range (500 ≤ rating < 1350); below 500 the
clamp makes it constant. -/
theorem C6_probability_band :
    (∀ e : ℚ, e < 1350 →
      0 < (getEngineConfig e).randomMoveProbability ∧
      (getEngineConfig e).randomMoveProbability < 1) ∧
    (∀ e₁ e₂ : ℚ, 500 ≤ e₁ → e₁ < e₂ → e₂ < 1350 →
      (getEngineConfig e₂).randomMoveProbability
        < (getEngineConfig e₁).randomMoveProbability) := by
  constructor
  · intro e he
    rw [getEngineConfig_below e he]
    have hc1 : (500 : ℚ) ≤ max 500 e := le_max_left _ _
    have hc2 : max 500 e < 1350 := max_lt (by norm_num) he
    have key : (max 500 e - 500) * 0.65 / 850 = (max 500 e - 500) * (13 / 17000) := by
      ring
    constructor
    · have hmul : (max 500 e - 500) * (13 / 17000) < 850 * (13 / 17000) := by
        apply mul_lt_mul_of_pos_right _ (by norm_num)
        linarith
      rw [key] at *
      simp only []
      nlinarith
    · have hmul : (0 : ℚ) ≤ (max 500 e - 500) * (13 / 17000) :=
        mul_nonneg (by linarith) (by norm_num)
      rw [key] at *
      simp only []
      nlinarith
  · intro e₁ e₂ h₁ h₂ h₃
    rw [getEngineConfig_below e₁ (by linarith), getEngineConfig_below e₂ h₃]
    have hm₁ : max 500 e₁ = e₁ := max_eq_right h₁
    have hm₂ : max 500 e₂ = e₂ := max_eq_right (by linarith)
    rw [hm₁, hm₂]
    have key : ∀ x : ℚ, (x - 500) * 0.65 / 850 = (x - 500) * (13 / 17000) := by
      intro x; ring
    rw [key, key]
    have : (e₁ - 500) * (13 / 17000) < (e₂ - 500) * (13 / 17000) :=
      mul_lt_mul_of_pos_right (by linarith) (by norm_num)
    simp only []
    linarith

/-- Witness for C6's amended theorem at ratings 600 < 700 < 1350. -/
theorem C6_witness :
    ((600 : ℚ) < 1350 ∧
      (0 < (getEngineConfig 600).randomMoveProbability ∧
       (getEngineConfig 600).randomMoveProbability < 1)) ∧
    ((500 : ℚ) ≤ 600 ∧ (600 : ℚ) < 700 ∧ (700 : ℚ) < 1350 ∧
      (getEngineConfig 700).randomMoveProbability
        < (getEngineConfig 600).randomMoveProbability) :=
  ⟨⟨by norm_num, C6_probability_band.1 600 (by norm_num)⟩,
   ⟨by norm_num, by norm_num, by norm_num,
    C6_probability_band.2 600 700 (by norm_num) (by norm_num) (by norm_num)⟩⟩

/-- C3: the classifier's thresholds are exactly the strict boundaries of the
claim — blunder iff delta < −3, mistake iff −3 ≤ delta < −1.5, inaccuracy
iff −1.5 ≤ delta < −0.5, brilliant iff delta > 0.5, good otherwise; in
particular a delta of exactly −3 is a mistake, not a blunder. -/
theorem C3_classification_thresholds (d : ℚ) :
    (classifyDelta d = Classification.blunder ↔ d < -3) ∧
    (classifyDelta d = Classification.mistake ↔ -3 ≤ d ∧ d < -1.5) ∧
    (classifyDelta d = Classification.inaccuracy ↔ -1.5 ≤ d ∧ d < -0.5) ∧
    (classifyDelta d = Classification.brilliant ↔ 0.5 < d) ∧
    (classifyDelta d = Classification.good ↔ -0.5 ≤ d ∧ d ≤ 0.5) ∧
    classifyDelta (-3) = Classification.mistake := by
  refine ⟨?_, ?_, ?_, ?_, ?_, by norm_num [classifyDelta]⟩ <;>
    unfold classifyDelta <;>
    split_ifs with h₁ h₂ h₃ h₄ <;>
    simp_all <;>
    first
      | linarith
      | (constructor <;> linarith)
      | (intro _; linarith)
      | (intro _; constructor <;> linarith)

/-- C10: in the random branch of `getWeakenedMove`, for every non-empty
legal-move list and every uniform draw `u ∈ [0, 1)`, the weighted selection
loop returns a move (the fallback after the loop, `pickWeighted = none`, is
unreachable), and the returned move is one of the position's legal moves. -/
theorem C10_weighted_pick (moves : List LegalMove) (u : ℚ)
    (hne : moves ≠ []) (h0 : 0 ≤ u) (h1 : u < 1) :
    ∃ m, pickWeighted (u * totalWeight moves) moves = some m ∧ m ∈ moves := by
  have ht := totalWeight_pos hne
  have hr : u * totalWeight moves < totalWeight moves := by nlinarith
  exact pickWeighted_mem_of_lt hne hr

/-- Witness for C10: two legal moves, draw 3/4. -/
theorem C10_witness :
    ([⟨"e2", "e4", none, none⟩, ⟨"d2", "d4", none, none⟩] : List LegalMove) ≠ [] ∧
    (0 : ℚ) ≤ 3 / 4 ∧ (3 / 4 : ℚ) < 1 ∧
    ∃ m, pickWeighted ((3 / 4) *
        totalWeight [⟨"e2", "e4", none, none⟩, ⟨"d2", "d4", none, none⟩])
        [⟨"e2", "e4", none, none⟩, ⟨"d2", "d4", none, none⟩] = some m ∧
      m ∈ ([⟨"e2", "e4", none, none⟩, ⟨"d2", "d4", none, none⟩] : List LegalMove) :=
  ⟨by simp, by norm_num, by norm_num,
   C10_weighted_pick _ _ (by simp) (by norm_num) (by norm_num)⟩

/-! ## Claim theorems: evaluation parsing and the analyze route -/

/-- C4: evaluating the analyze route's own delta computation on a game with
a constant White advantage of +0.5 pawns.  After White's move the engine
(Black to move) reports −0.5; after Black's reply (White to move) it
reports +0.5.  The route differences these raw scores without the
perspective normalization the spec mandates and classifies Black's neutral
move as an inaccuracy with delta −1, while the spec-modelled normalized
pipeline yields delta 0 and classification good. -/
theorem C4_perspective_bug :
    analyzeGame [(Side.white, -1/2), (Side.black, 1/2)] =
      [{ evaluation := -1/2, classification := Classification.good, evalDiff := 0 },
       { evaluation := 1/2, classification := Classification.inaccuracy, evalDiff := -1 }] ∧
    specMoverDelta Side.black
      (normalizeEval Side.black (-1/2)) (normalizeEval Side.white (1/2)) = 0 ∧
    classifyDelta 0 = Classification.good := by
  have hwb : (Side.white = Side.black) = False := by simp
  have hbw : (Side.black = Side.white) = False := by simp
  refine ⟨?_, ?_, by norm_num [classifyDelta]⟩
  · norm_num [analyzeGame, analyzeStep, classifyDelta, hwb, hbw]
  · norm_num [normalizeEval, specMoverDelta, hwb, hbw]

lemma decodeTop_mate {l : EngineLine} {e : TopEntry} {m : ℤ}
    (hd : decodeTop l = some e) (hm : l.mateScore = some m) :
    e.evaluation = (if 0 < m then 100 else -100) ∧ e.mate = some m := by
  obtain ⟨info, mpv, pv, cp, ms, bm⟩ := l
  simp only at hm
  subst hm
  cases info <;> cases mpv <;> cases pv <;>
    simp [decodeTop] at hd <;>
    simp [← hd]

/-- C8: whenever a decoded line carries a mate score `m`, both
`evaluatePosition`'s accumulator and `getTopMoves`' per-rank decoding
saturate the evaluation to magnitude 100 — +100 for a positive mate
distance, −100 for a negative one — before the value is stored or
differenced. -/
theorem C8_mate_saturation :
    (∀ (st : EvalState) (l : EngineLine) (m : ℤ), l.mateScore = some m →
      ((0 < m → (evalStep st l).evaluation = 100) ∧
       (m < 0 → (evalStep st l).evaluation = -100) ∧
       |(evalStep st l).evaluation| = 100)) ∧
    (∀ (l : EngineLine) (e : TopEntry) (m : ℤ), decodeTop l = some e → l.mateScore = some m →
      ((0 < m → e.evaluation = 100) ∧ (m < 0 → e.evaluation = -100) ∧ |e.evaluation| = 100)) := by
  constructor
  · intro st l m hm
    have hev : (evalStep st l).evaluation = if 0 < m then 100 else -100 := by
      simp [evalStep, hm]
    rw [hev]
    refine ⟨fun h => by rw [if_pos h], fun h => by rw [if_neg (by omega)], ?_⟩
    split_ifs <;> norm_num
  · intro l e m hd hm
    have hev := (decodeTop_mate hd hm).1
    rw [hev]
    refine ⟨fun h => by rw [if_pos h], fun h => by rw [if_neg (by omega)], ?_⟩
    split_ifs <;> norm_num

/-- Witness for C8: a line carrying `score mate 3` (with an interleaved
`score cp 42` on the same line, which the mate saturation overrides). -/
theorem C8_witness :
    (⟨true, some 1, some "e2e4", some 42, some 3, none⟩ : EngineLine).mateScore = some 3 ∧
    ((0 < (3 : ℤ) →
        (evalStep ⟨0, none⟩ ⟨true, some 1, some "e2e4", some 42, some 3, none⟩).evaluation = 100) ∧
     ((3 : ℤ) < 0 →
        (evalStep ⟨0, none⟩ ⟨true, some 1, some "e2e4", some 42, some 3, none⟩).evaluation = -100) ∧
     |(evalStep ⟨0, none⟩ ⟨true, some 1, some "e2e4", some 42, some 3, none⟩).evaluation| = 100) :=
  ⟨rfl, C8_mate_saturation.1 ⟨0, none⟩ ⟨true, some 1, some "e2e4", some 42, some 3, none⟩ 3 rfl⟩

lemma find?_upsertTop (e : TopEntry) (rs : List TopEntry) :
    (upsertTop e rs).find? (fun x => x.rank == e.rank) = some e := by
  induction rs with
  | nil => simp [upsertTop]
  | cons r rs ih =>
    by_cases h : r.rank = e.rank
    · simp [upsertTop, h]
    · simp [upsertTop, h, ih]

/-- C9: `getTopMoves`' line handling keeps, per rank, the last score seen
(a new scored line for a rank replaces the stored entry for that rank),
ignores lines that are neither scored variations nor terminal, and the
final result is ordered by rank ascending — when a rank-1 entry exists and
all ranks are at least 1, the rank-1 entry comes first. -/
theorem C9_top_moves :
    (∀ (results : List TopEntry) (l : EngineLine) (e : TopEntry),
      decodeTop l = some e →
      (topStep results l).find? (fun x => x.rank == e.rank) = some e) ∧
    (∀ (results : List TopEntry) (l : EngineLine) (ls : List EngineLine),
      decodeTop l = none → l.bestMove = none →
      topLoop results (l :: ls) = topLoop results ls) ∧
    (∀ results : List TopEntry, List.Sorted rankLE (sortByRank results)) ∧
    (∀ (results : List TopEntry) (e₀ : TopEntry), e₀ ∈ results → e₀.rank = 1 →
      (∀ e ∈ results, 1 ≤ e.rank) →
      ∃ eh, (sortByRank results).head? = some eh ∧ eh.rank = 1) := by
  refine ⟨?_, ?_, ?_, ?_⟩
  · intro results l e hd
    unfold topStep
    rw [hd]
    exact find?_upsertTop e results
  · intro results l ls hd hbm
    simp [topLoop, topStep, hd, hbm]
  · intro results
    exact List.sorted_insertionSort rankLE results
  · intro results e₀ hmem hrank hall
    have hmem' : e₀ ∈ sortByRank results := by
      unfold sortByRank
      exact (List.mem_insertionSort rankLE).2 hmem
    cases hsr : sortByRank results with
    | nil => rw [hsr] at hmem'; simp at hmem'
    | cons eh t =>
      refine ⟨eh, rfl, ?_⟩
      have hsorted : List.Sorted rankLE (sortByRank results) :=
        List.sorted_insertionSort rankLE results
      rw [hsr] at hsorted hmem'
      have hehmem : eh ∈ results := by
        have : eh ∈ sortByRank results := by
          rw [hsr]
          exact List.mem_cons_self _ _
        exact (List.mem_insertionSort rankLE).1 this
      have h1 : 1 ≤ eh.rank := hall eh hehmem
      rcases List.mem_cons.mp hmem' with rfl | hm
      · exact hrank
      · have hle : rankLE eh e₀ := (List.sorted_cons.mp hsorted).1 e₀ hm
        unfold rankLE at hle
        omega

/-- Witness for C9: a later `score cp` line for rank 1 overwrites the stored
entry; an unrecognized diagnostic line is skipped; the rank-1 entry sorts
first. -/
theorem C9_witness :
    (decodeTop ⟨true, some 1, some "e2e4", none, some 2, none⟩ =
        some ⟨"e2e4", 100, some 2, 1⟩ ∧
      (topStep [⟨"a2a3", 0, none, 1⟩] ⟨true, some 1, some "e2e4", none, some 2, none⟩).find?
          (fun x => x.rank == (⟨"e2e4", 100, some 2, 1⟩ : TopEntry).rank) =
        some ⟨"e2e4", 100, some 2, 1⟩) ∧
    topLoop [] (⟨false, none, none, none, none, none⟩ :: []) = topLoop [] [] ∧
    (∃ eh, (sortByRank [⟨"a", 0, none, 2⟩, ⟨"b", 0, none, 1⟩]).head? = some eh ∧
      eh.rank = 1) := by
  have hdec : decodeTop ⟨true, some 1, some "e2e4", none, some 2, none⟩ =
      some ⟨"e2e4", 100, some 2, 1⟩ := by
    simp [decodeTop]
  refine ⟨⟨hdec, ?_⟩, ?_, ?_⟩
  · exact C9_top_moves.1 [⟨"a2a3", 0, none, 1⟩]
      ⟨true, some 1, some "e2e4", none, some 2, none⟩ ⟨"e2e4", 100, some 2, 1⟩ hdec
  · exact C9_top_moves.2.1 [] ⟨false, none, none, none, none, none⟩ [] rfl rfl
  · exact C9_top_moves.2.2.2 [⟨"a", 0, none, 2⟩, ⟨"b", 0, none, 1⟩] ⟨"b", 0, none, 1⟩
      (by simp) rfl (by simp)

/-! ## Claim theorems: the command queue -/

/-- The run refuting C1 as stated: item 0 is dispatched, the engine dies,
restarts, item 1 is dispatched and item 2 queued; then item 0's never
cancelled 10-second timer fires, `finishProcessing()` clears the busy flag
and dispatches item 2 while item 1 is still in flight. -/
def c1BadTrace : List Act :=
  [Act.uciok, Act.submit .bestMoveReq, Act.died, Act.restart, Act.uciok,
   Act.submit .bestMoveReq, Act.submit .bestMoveReq, Act.timer 0]

/-- C1 counterexample: on `c1BadTrace` the log dispatches item 2 while item
1 has neither completed, timed out, nor been flushed — the FIFO
single-flight property fails on the code. -/
theorem C1_counterexample :
    (runActs c1BadTrace).log =
      [Ev.dispatched 0, Ev.dispatched 1,
       Ev.out (Outcome.rejectedTimeout 0), Ev.dispatched 2] ∧
    ¬ FifoSingleFlight (runActs c1BadTrace).log :=
  ⟨by decide, fun h => absurd h.1 (by decide)⟩

/-- The run refuting C2 as stated: the engine dies while item 0 is in
flight; the `close` handler never rejects it (it only flushes the waiting
queue, which is empty), and item 0 eventually settles through its own
timeout with `'Stockfish timeout'` — not with an engine-unavailable
failure. -/
def c2BadTrace : List Act :=
  [Act.uciok, Act.submit .bestMoveReq, Act.died, Act.timer 0]

/-- C2 counterexample: the in-flight item is not rejected with the
engine-unavailable failure when the process dies; it settles by timeout. -/
theorem C2_counterexample :
    (runActs c2BadTrace).log =
      [Ev.dispatched 0, Ev.out (Outcome.rejectedTimeout 0)] ∧
    Ev.out (Outcome.rejectedDied 0) ∉ (runActs c2BadTrace).log :=
  ⟨by decide, by decide⟩

/-- The spec's crash-recovery scenario: item 0 in flight, items 1-3 queued,
the process dies, restarts after the backoff, a fresh item 4 is submitted
and succeeds; finally item 0's stale timer fires. -/
def c2RecoveryTrace : List Act :=
  [Act.uciok, Act.submit .bestMoveReq, Act.submit .bestMoveReq,
   Act.submit .bestMoveReq, Act.submit .bestMoveReq, Act.died, Act.restart,
   Act.uciok, Act.submit .bestMoveReq,
   Act.terminal (some "e2e4") evalTimeoutResult, Act.timer 0]

/-- C2 amended: on process death every *waiting* queue item is rejected
with the engine-unavailable failure (`'Stockfish process died'`), the queue
empties and returns to idle, and a restart is scheduled after the fixed
1000 ms backoff; the in-flight item is not rejected then — it settles later
through its own timeout.  After the restart no prior queued work is
replayed and a newly submitted item can succeed, as the concrete
crash-recovery run shows. -/
theorem C2_crash_recovery :
    (∀ s : SfState, s.alive = true →
      (engineDied s).log = s.log ++ (s.queue.map fun i => Ev.out (Outcome.rejectedDied i.id)) ∧
      (engineDied s).queue = [] ∧
      (engineDied s).processing = false ∧
      (engineDied s).ready = false ∧
      (engineDied s).pendingRestartMs = some restartBackoffMs) ∧
    restartBackoffMs = 1000 ∧
    (runActs c2RecoveryTrace).log =
      [Ev.dispatched 0,
       Ev.out (Outcome.rejectedDied 1), Ev.out (Outcome.rejectedDied 2),
       Ev.out (Outcome.rejectedDied 3),
       Ev.dispatched 4, Ev.out (Outcome.resolvedMove 4 "e2e4"),
       Ev.out (Outcome.rejectedTimeout 0)] := by
  refine ⟨?_, rfl, by decide⟩
  intro s hs
  unfold engineDied
  rw [if_pos hs]
  exact ⟨rfl, rfl, rfl, rfl, rfl⟩

/-- Witness for C2's amended theorem: a live state with two waiting items. -/
theorem C2_witness :
    (engineDied
        { alive := true, ready := true, processing := true, nextId := 3,
          queue := [⟨1, Kind.evalReq⟩, ⟨2, Kind.bestMoveReq⟩],
          handlers := [⟨0, Kind.bestMoveReq⟩], timers := [⟨0, Kind.bestMoveReq⟩],
          pendingRestartMs := none, log := [Ev.dispatched 0] }).log =
      [Ev.dispatched 0] ++
        (([⟨1, Kind.evalReq⟩, ⟨2, Kind.bestMoveReq⟩] : List Item).map
          fun i => Ev.out (Outcome.rejectedDied i.id)) ∧
    (engineDied
        { alive := true, ready := true, processing := true, nextId := 3,
          queue := [⟨1, Kind.evalReq⟩, ⟨2, Kind.bestMoveReq⟩],
          handlers := [⟨0, Kind.bestMoveReq⟩], timers := [⟨0, Kind.bestMoveReq⟩],
          pendingRestartMs := none, log := [Ev.dispatched 0] }).queue = [] ∧
    (engineDied
        { alive := true, ready := true, processing := true, nextId := 3,
          queue := [⟨1, Kind.evalReq⟩, ⟨2, Kind.bestMoveReq⟩],
          handlers := [⟨0, Kind.bestMoveReq⟩], timers := [⟨0, Kind.bestMoveReq⟩],
          pendingRestartMs := none, log := [Ev.dispatched 0] }).processing = false ∧
    (engineDied
        { alive := true, ready := true, processing := true, nextId := 3,
          queue := [⟨1, Kind.evalReq⟩, ⟨2, Kind.bestMoveReq⟩],
          handlers := [⟨0, Kind.bestMoveReq⟩], timers := [⟨0, Kind.bestMoveReq⟩],
          pendingRestartMs := none, log := [Ev.dispatched 0] }).ready = false ∧
    (engineDied
        { alive := true, ready := true, processing := true, nextId := 3,
          queue := [⟨1, Kind.evalReq⟩, ⟨2, Kind.bestMoveReq⟩],
          handlers := [⟨0, Kind.bestMoveReq⟩], timers := [⟨0, Kind.bestMoveReq⟩],
          pendingRestartMs := none, log := [Ev.dispatched 0] }).pendingRestartMs =
      some restartBackoffMs :=
  C2_crash_recovery.1 _ rfl

/-- C7: when the timeout of the in-flight item fires, an `evaluatePosition`
item resolves with the neutral fallback `{ evaluation: 0, bestMove: '',
mate: undefined }` while a best-move item rejects with the timeout error;
in either case the queue is released and the next waiting item is
dispatched immediately. -/
theorem C7_timeout_policy (s : SfState) (i : Nat) (k : Kind) (j : Item) (rest : List Item)
    (halive : s.alive = true) (hready : s.ready = true)
    (hh : s.handlers = [⟨i, k⟩]) (ht : s.timers = [⟨i, k⟩]) (hq : s.queue = j :: rest) :
    (timerFire s i).log =
      s.log ++ [Ev.out (timeoutOutcome ⟨i, k⟩), Ev.dispatched j.id] ∧
    (timerFire s i).processing = true ∧
    (timerFire s i).queue = rest ∧
    timeoutOutcome ⟨i, Kind.evalReq⟩ = Outcome.resolvedEval i evalTimeoutResult ∧
    timeoutOutcome ⟨i, Kind.bestMoveReq⟩ = Outcome.rejectedTimeout i ∧
    evalTimeoutResult = { evaluation := 0, bestMove := "", mate := none } := by
  have hfind : s.timers.find? (fun x => x.id = i) = some ⟨i, k⟩ := by
    rw [ht]
    simp [List.find?]
  unfold timerFire
  rw [hfind]
  unfold finishProcessing processQueue
  simp only [ht, hh, hq, halive, hready]
  refine ⟨?_, ?_, ?_, rfl, rfl, rfl⟩ <;> simp [List.append_assoc]

/-- Witness for C7 at a concrete busy state with one waiting item. -/
theorem C7_witness :
    (timerFire
        { alive := true, ready := true, processing := true, nextId := 2,
          queue := [⟨1, Kind.bestMoveReq⟩], handlers := [⟨0, Kind.evalReq⟩],
          timers := [⟨0, Kind.evalReq⟩], pendingRestartMs := none,
          log := [Ev.dispatched 0] } 0).log =
      [Ev.dispatched 0] ++
        [Ev.out (timeoutOutcome ⟨0, Kind.evalReq⟩), Ev.dispatched 1] ∧
    (timerFire
        { alive := true, ready := true, processing := true, nextId := 2,
          queue := [⟨1, Kind.bestMoveReq⟩], handlers := [⟨0, Kind.evalReq⟩],
          timers := [⟨0, Kind.evalReq⟩], pendingRestartMs := none,
          log := [Ev.dispatched 0] } 0).processing = true ∧
    (timerFire
        { alive := true, ready := true, processing := true, nextId := 2,
          queue := [⟨1, Kind.bestMoveReq⟩], handlers := [⟨0, Kind.evalReq⟩],
          timers := [⟨0, Kind.evalReq⟩], pendingRestartMs := none,
          log := [Ev.dispatched 0] } 0).queue = [] ∧
    timeoutOutcome ⟨0, Kind.evalReq⟩ = Outcome.resolvedEval 0 evalTimeoutResult ∧
    timeoutOutcome ⟨0, Kind.bestMoveReq⟩ = Outcome.rejectedTimeout 0 ∧
    evalTimeoutResult = { evaluation := 0, bestMove := "", mate := none } :=
  C7_timeout_policy _ 0 Kind.evalReq ⟨1, Kind.bestMoveReq⟩ [] rfl rfl rfl rfl rfl

/-! ## Crash-free FIFO single-flight: invariant development -/

/-- Settled ids accumulated by a `checkPrior` scan over a log segment. -/
def settledAfter (st : List Nat) : List Ev → List Nat
  | [] => st
  | Ev.dispatched _ :: rest => settledAfter st rest
  | Ev.out o :: rest => settledAfter (o.itemId :: st) rest

lemma settledIds_append (l1 l2 : List Ev) :
    settledIds (l1 ++ l2) = settledIds l1 ++ settledIds l2 :=
  List.filterMap_append l1 l2 _

lemma dispatchOrder_append (l1 l2 : List Ev) :
    dispatchOrder (l1 ++ l2) = dispatchOrder l1 ++ dispatchOrder l2 :=
  List.filterMap_append l1 l2 _

lemma settledIds_out (o : Outcome) : settledIds [Ev.out o] = [o.itemId] := rfl

lemma settledIds_dispatched (j : Nat) : settledIds [Ev.dispatched j] = [] := rfl

lemma dispatchOrder_out (o : Outcome) : dispatchOrder [Ev.out o] = [] := rfl

lemma dispatchOrder_dispatched (j : Nat) : dispatchOrder [Ev.dispatched j] = [j] := rfl

lemma settledIds_flush (qs : List Item) :
    settledIds (qs.map fun i => Ev.out (Outcome.rejectedNotReady i.id)) = qs.map Item.id := by
  induction qs with
  | nil => rfl
  | cons q qs ih => simpa [settledIds, List.filterMap_cons, Outcome.itemId] using ih

lemma dispatchOrder_flush (qs : List Item) :
    dispatchOrder (qs.map fun i => Ev.out (Outcome.rejectedNotReady i.id)) = [] := by
  induction qs with
  | nil => rfl
  | cons q qs ih => simpa [dispatchOrder, List.filterMap_cons] using ih

lemma checkPrior_append (st : List Nat) (l1 l2 : List Ev) :
    checkPrior st (l1 ++ l2) = (checkPrior st l1 && checkPrior (settledAfter st l1) l2) := by
  induction l1 generalizing st with
  | nil => simp [checkPrior, settledAfter]
  | cons e rest ih =>
    cases e with
    | dispatched j => simp [checkPrior, settledAfter, ih, Bool.and_assoc]
    | out o => simp [checkPrior, settledAfter, ih]

lemma mem_settledAfter (st : List Nat) (l : List Ev) (i : Nat) :
    i ∈ settledAfter st l ↔ i ∈ settledIds l ∨ i ∈ st := by
  induction l generalizing st with
  | nil => simp [settledAfter, settledIds]
  | cons e rest ih =>
    cases e with
    | dispatched j => simp [settledAfter, settledIds, List.filterMap_cons, ih]
    | out o =>
      simp only [settledAfter, settledIds, List.filterMap_cons, ih, List.mem_cons]
      tauto

lemma checkPrior_outs (st : List Nat) (l : List Ev)
    (h : ∀ e ∈ l, ∃ o, e = Ev.out o) : checkPrior st l = true := by
  induction l generalizing st with
  | nil => rfl
  | cons e rest ih =>
    rcases h e (List.mem_cons_self _ _) with ⟨o, rfl⟩
    show checkPrior (o.itemId :: st) rest = true
    exact ih _ fun e he => h e (List.mem_cons_of_mem _ he)

lemma checkPrior_append_outs {log : List Ev} (hc : checkPrior [] log = true)
    (l2 : List Ev) (h2 : ∀ e ∈ l2, ∃ o, e = Ev.out o) :
    checkPrior [] (log ++ l2) = true := by
  rw [checkPrior_append, hc, Bool.true_and]
  exact checkPrior_outs _ _ h2

lemma checkPrior_append_dispatch {log : List Ev} {m j : Nat}
    (hc : checkPrior [] log = true)
    (hs : ∀ i, i ∈ settledIds log ↔ i < m) (hj : j ≤ m) :
    checkPrior [] (log ++ [Ev.dispatched j]) = true := by
  rw [checkPrior_append, hc, Bool.true_and]
  simp only [checkPrior, Bool.and_true]
  rw [List.all_eq_true]
  intro x hx
  rw [decide_eq_true_iff, mem_settledAfter]
  exact Or.inl ((hs x).2 (lt_of_lt_of_le (List.mem_range.mp hx) hj))

lemma sorted_append_lt {l : List Nat} {j : Nat}
    (h : List.Sorted (· < ·) l) (hj : ∀ x ∈ l, x < j) :
    List.Sorted (· < ·) (l ++ [j]) := by
  apply List.pairwise_append.mpr
  refine ⟨h, List.pairwise_singleton _ _, fun a ha b hb => ?_⟩
  rw [List.mem_singleton] at hb
  subst hb
  exact hj a ha

lemma settledUpto_out {log : List Ev} {m : Nat} {o : Outcome}
    (hs : ∀ i, i ∈ settledIds log ↔ i < m) (ho : o.itemId = m) :
    ∀ i, i ∈ settledIds (log ++ [Ev.out o]) ↔ i < m + 1 := by
  intro i
  rw [settledIds_append, List.mem_append, settledIds_out, ho, List.mem_singleton, hs i]
  omega

lemma timeoutOutcome_itemId (i : Item) : (timeoutOutcome i).itemId = i.id := by
  obtain ⟨n, k⟩ := i
  cases k <;> rfl

lemma terminalOutcome_itemId (i : Item) (mv : Option String) (er : EvalResult) :
    (terminalOutcome i mv er).itemId = i.id := by
  obtain ⟨n, k⟩ := i
  cases k <;> cases mv <;> rfl

/-- Idle shape of the crash-free invariant: nothing in flight, queue empty,
all `m` submitted items settled. -/
def InvIdle (s : SfState) (m : Nat) : Prop :=
  s.handlers = [] ∧ s.processing = false ∧ s.queue = [] ∧ s.nextId = m ∧
    ∀ j ∈ dispatchOrder s.log, j < m

/-- Busy shape: exactly item `m` is in flight, the queue holds the later
submissions in consecutive id order. -/
def InvBusy (s : SfState) (m : Nat) : Prop :=
  (∃ k, s.handlers = [⟨m, k⟩]) ∧ s.processing = true ∧
    s.queue.map Item.id = List.range' (m + 1) (s.nextId - (m + 1)) ∧
    m + 1 ≤ s.nextId ∧
    ∀ j ∈ dispatchOrder s.log, j ≤ m

/-- Reachability invariant of crash-free runs: the engine stays alive with
no pending restart, timers track handlers, the settled ids are exactly
`0..m-1`, the log passes the FIFO scan, and the state is idle or busy. -/
def Inv (s : SfState) : Prop :=
  ∃ m, s.alive = true ∧ s.pendingRestartMs = none ∧ s.timers = s.handlers ∧
    (∀ i, i ∈ settledIds s.log ↔ i < m) ∧
    checkPrior [] s.log = true ∧
    List.Sorted (· < ·) (dispatchOrder s.log) ∧
    (InvIdle s m ∨ InvBusy s m)

lemma processQueue_busy {s : SfState} (hp : s.processing = true) :
    processQueue s = s := by
  unfold processQueue
  simp [hp]

lemma processQueue_dispatch {s : SfState} {i : Item} {rest : List Item}
    (hp : s.processing = false) (ha : s.alive = true) (hr : s.ready = true)
    (hq : s.queue = i :: rest) :
    processQueue s = { s with processing := true, queue := rest,
                              handlers := s.handlers ++ [i], timers := s.timers ++ [i],
                              log := s.log ++ [Ev.dispatched i.id] } := by
  unfold processQueue
  simp [hp, ha, hr, hq]

lemma processQueue_nil {s : SfState} (hp : s.processing = false) (hq : s.queue = []) :
    processQueue s = s := by
  unfold processQueue
  by_cases h : (s.alive && s.ready) = true
  · simp [hp, h, hq]
  · rw [Bool.not_eq_true] at h
    obtain ⟨al, re, pr, ni, qu, ha, ti, pe, lo⟩ := s
    simp only at hp hq h
    subst hp hq
    simp [h]

lemma processQueue_flush {s : SfState}
    (hp : s.processing = false) (hna : (s.alive && s.ready) = false) :
    processQueue s = { s with queue := [],
                              log := s.log ++ s.queue.map
                                fun i => Ev.out (Outcome.rejectedNotReady i.id) } := by
  unfold processQueue
  simp [hp, hna]

/-- Core step of the preservation proof: the in-flight item `m` settles
(by terminal event or timeout), its artifacts are removed, and
`finishProcessing` runs.  The invariant advances from busy at `m` to the
appropriate shape. -/
lemma inv_after_settle {s : SfState} {m : Nat} (o : Outcome)
    (halive : s.alive = true) (hpend : s.pendingRestartMs = none)
    (hsettled : ∀ i, i ∈ settledIds s.log ↔ i < m)
    (hcheck : checkPrior [] s.log = true)
    (hsorted : List.Sorted (· < ·) (dispatchOrder s.log))
    (hq : s.queue.map Item.id = List.range' (m + 1) (s.nextId - (m + 1)))
    (hn : m + 1 ≤ s.nextId)
    (hd : ∀ j ∈ dispatchOrder s.log, j ≤ m)
    (ho : o.itemId = m) :
    Inv (finishProcessing
      { s with timers := [], handlers := [], log := s.log ++ [Ev.out o] }) := by
  have hs' := settledUpto_out hsettled ho
  have hc2 : checkPrior [] (s.log ++ [Ev.out o]) = true :=
    checkPrior_append_outs hcheck _
      (by intro e he; rw [List.mem_singleton] at he; exact ⟨o, he⟩)
  have hdo : dispatchOrder (s.log ++ [Ev.out o]) = dispatchOrder s.log := by
    rw [dispatchOrder_append, dispatchOrder_out, List.append_nil]
  set R : SfState := { s with processing := false, timers := [], handlers := [],
                              log := s.log ++ [Ev.out o] } with hR
  show Inv (processQueue R)
  by_cases hr : s.ready = true
  · by_cases hqe : s.queue = []
    · rw [@processQueue_nil R rfl hqe]
      have hni : s.nextId = m + 1 := by
        rw [hqe] at hq
        have := congrArg List.length hq
        simp [List.length_range'] at this
        omega
      refine ⟨m + 1, halive, hpend, rfl, hs', hc2, ?_, Or.inl ?_⟩
      · show List.Sorted (· < ·) (dispatchOrder (s.log ++ [Ev.out o]))
        rw [hdo]
        exact hsorted
      refine ⟨rfl, rfl, hqe, hni, ?_⟩
      intro j hj
      rw [show dispatchOrder R.log = dispatchOrder (s.log ++ [Ev.out o]) from rfl, hdo] at hj
      exact lt_of_le_of_lt (hd j hj) (Nat.lt_succ_self m)
    · obtain ⟨qh, qrest, hqe⟩ := List.exists_cons_of_ne_nil hqe
      have hcne : s.nextId - (m + 1) ≠ 0 := by
        intro h0
        rw [hqe, h0] at hq
        simp [List.range'] at hq
      obtain ⟨c, hceq⟩ : ∃ c, s.nextId - (m + 1) = c + 1 :=
        ⟨s.nextId - (m + 1) - 1, by omega⟩
      have hq2 : qh.id = m + 1 ∧ qrest.map Item.id = List.range' (m + 2) c := by
        rw [hqe, hceq, List.range'_succ] at hq
        simp only [List.map_cons, List.cons.injEq] at hq
        exact ⟨hq.1, by rw [hq.2]⟩
      rw [@processQueue_dispatch R qh qrest rfl halive hr hqe]
      refine ⟨m + 1, halive, hpend, rfl, ?_, ?_, ?_, Or.inr ?_⟩
      · show ∀ i, i ∈ settledIds ((s.log ++ [Ev.out o]) ++ [Ev.dispatched qh.id]) ↔ i < m + 1
        intro i
        rw [settledIds_append, List.mem_append, settledIds_dispatched]
        simp only [List.not_mem_nil, or_false]
        exact hs' i
      · show checkPrior [] ((s.log ++ [Ev.out o]) ++ [Ev.dispatched qh.id]) = true
        exact checkPrior_append_dispatch hc2 hs' (by rw [hq2.1])
      · show List.Sorted (· < ·)
          (dispatchOrder ((s.log ++ [Ev.out o]) ++ [Ev.dispatched qh.id]))
        rw [dispatchOrder_append, dispatchOrder_dispatched, hdo, hq2.1]
        refine sorted_append_lt hsorted ?_
        intro x hx
        exact lt_of_le_of_lt (hd x hx) (Nat.lt_succ_self m)
      · refine ⟨⟨qh.kind, ?_⟩, rfl, ?_, ?_, ?_⟩
        · show [qh] = [⟨m + 1, qh.kind⟩]
          rw [← hq2.1]
        · show qrest.map Item.id = List.range' (m + 1 + 1) (s.nextId - (m + 1 + 1))
          rw [hq2.2]
          congr 1
          omega
        · show m + 1 + 1 ≤ s.nextId
          omega
        · show ∀ j ∈ dispatchOrder ((s.log ++ [Ev.out o]) ++ [Ev.dispatched qh.id]),
            j ≤ m + 1
          intro j hj
          rw [dispatchOrder_append, dispatchOrder_dispatched, hdo, hq2.1] at hj
          rw [List.mem_append, List.mem_singleton] at hj
          rcases hj with hj | hj
          · exact le_trans (hd j hj) (Nat.le_succ m)
          · omega
  · have hna : (R.alive && R.ready) = false := by
      rw [Bool.not_eq_true] at hr
      show (s.alive && s.ready) = false
      rw [hr, Bool.and_false]
    rw [@processQueue_flush R rfl hna]
    refine ⟨s.nextId, halive, hpend, rfl, ?_, ?_, ?_, Or.inl ?_⟩
    · show ∀ i, i ∈ settledIds ((s.log ++ [Ev.out o]) ++
        s.queue.map fun i => Ev.out (Outcome.rejectedNotReady i.id)) ↔ i < s.nextId
      intro i
      rw [settledIds_append, List.mem_append, settledIds_flush, hq, List.mem_range'_1,
        hs' i]
      omega
    · show checkPrior [] ((s.log ++ [Ev.out o]) ++
        s.queue.map fun i => Ev.out (Outcome.rejectedNotReady i.id)) = true
      refine checkPrior_append_outs hc2 _ ?_
      intro e he
      rw [List.mem_map] at he
      obtain ⟨x, _, hx⟩ := he
      exact ⟨_, hx.symm⟩
    · show List.Sorted (· < ·) (dispatchOrder ((s.log ++ [Ev.out o]) ++
        s.queue.map fun i => Ev.out (Outcome.rejectedNotReady i.id)))
      rw [dispatchOrder_append, dispatchOrder_flush, List.append_nil, hdo]
      exact hsorted
    · refine ⟨rfl, rfl, rfl, rfl, ?_⟩
      show ∀ j ∈ dispatchOrder ((s.log ++ [Ev.out o]) ++
        s.queue.map fun i => Ev.out (Outcome.rejectedNotReady i.id)), j < s.nextId
      intro j hj
      rw [dispatchOrder_append, dispatchOrder_flush, List.append_nil, hdo] at hj
      exact lt_of_le_of_lt (hd j hj) (by omega)

lemma inv_submit {s : SfState} (h : Inv s) (k : Kind) : Inv (submitItem s k) := by
  obtain ⟨m, halive, hpend, htimers, hsettled, hcheck, hsorted, hcase⟩ := h
  set S : SfState := { s with queue := s.queue ++ [⟨s.nextId, k⟩], nextId := s.nextId + 1 }
    with hS
  show Inv (processQueue S)
  rcases hcase with ⟨hh, hp, hqe, hni, hdlt⟩ | ⟨⟨k0, hh⟩, hp, hq, hn, hd⟩
  · subst hni
    by_cases hr : s.ready = true
    · have hqS : S.queue = (⟨s.nextId, k⟩ : Item) :: [] := by
        show s.queue ++ [⟨s.nextId, k⟩] = _
        rw [hqe, List.nil_append]
      rw [@processQueue_dispatch S ⟨s.nextId, k⟩ [] hp halive hr hqS]
      refine ⟨s.nextId, halive, hpend, ?_, ?_, ?_, ?_, Or.inr ?_⟩
      · show s.timers ++ [(⟨s.nextId, k⟩ : Item)] = s.handlers ++ [(⟨s.nextId, k⟩ : Item)]
        rw [htimers]
      · show ∀ i, i ∈ settledIds (s.log ++ [Ev.dispatched s.nextId]) ↔ i < s.nextId
        intro i
        rw [settledIds_append, settledIds_dispatched, List.append_nil]
        exact hsettled i
      · show checkPrior [] (s.log ++ [Ev.dispatched s.nextId]) = true
        exact checkPrior_append_dispatch hcheck hsettled (le_refl _)
      · show List.Sorted (· < ·) (dispatchOrder (s.log ++ [Ev.dispatched s.nextId]))
        rw [dispatchOrder_append, dispatchOrder_dispatched]
        exact sorted_append_lt hsorted hdlt
      · refine ⟨⟨k, ?_⟩, rfl, ?_, le_refl _, ?_⟩
        · show s.handlers ++ [(⟨s.nextId, k⟩ : Item)] = [(⟨s.nextId, k⟩ : Item)]
          rw [hh, List.nil_append]
        · show List.map Item.id [] = List.range' (s.nextId + 1) (s.nextId + 1 - (s.nextId + 1))
          simp
        · show ∀ j ∈ dispatchOrder (s.log ++ [Ev.dispatched s.nextId]), j ≤ s.nextId
          intro j hj
          rw [dispatchOrder_append, dispatchOrder_dispatched, List.mem_append,
            List.mem_singleton] at hj
          rcases hj with hj | hj
          · exact le_of_lt (hdlt j hj)
          · omega
    · have hna : (S.alive && S.ready) = false := by
        rw [Bool.not_eq_true] at hr
        show (s.alive && s.ready) = false
        rw [hr, Bool.and_false]
      rw [@processQueue_flush S hp hna]
      have hmap : S.queue.map (fun i => Ev.out (Outcome.rejectedNotReady i.id)) =
          [Ev.out (Outcome.rejectedNotReady s.nextId)] := by
        show (s.queue ++ [(⟨s.nextId, k⟩ : Item)]).map
          (fun i => Ev.out (Outcome.rejectedNotReady i.id)) =
          [Ev.out (Outcome.rejectedNotReady s.nextId)]
        rw [hqe, List.nil_append, List.map_singleton]
      refine ⟨s.nextId + 1, halive, hpend, htimers, ?_, ?_, ?_, Or.inl ?_⟩
      · show ∀ i, i ∈ settledIds (s.log ++
          S.queue.map fun i => Ev.out (Outcome.rejectedNotReady i.id)) ↔ i < s.nextId + 1
        rw [hmap]
        exact settledUpto_out hsettled rfl
      · show checkPrior [] (s.log ++
          S.queue.map fun i => Ev.out (Outcome.rejectedNotReady i.id)) = true
        rw [hmap]
        refine checkPrior_append_outs hcheck _ ?_
        intro e he
        rw [List.mem_singleton] at he
        exact ⟨_, he⟩
      · show List.Sorted (· < ·) (dispatchOrder (s.log ++
          S.queue.map fun i => Ev.out (Outcome.rejectedNotReady i.id)))
        rw [hmap, dispatchOrder_append, dispatchOrder_out, List.append_nil]
        exact hsorted
      · refine ⟨hh, hp, rfl, rfl, ?_⟩
        show ∀ j ∈ dispatchOrder (s.log ++
          S.queue.map fun i => Ev.out (Outcome.rejectedNotReady i.id)), j < s.nextId + 1
        intro j hj
        rw [hmap, dispatchOrder_append, dispatchOrder_out, List.append_nil] at hj
        exact lt_trans (hdlt j hj) (Nat.lt_succ_self _)
  · have hpS : S.processing = true := hp
    rw [processQueue_busy hpS]
    refine ⟨m, halive, hpend, htimers, hsettled, hcheck, hsorted,
      Or.inr ⟨⟨k0, hh⟩, hp, ?_, ?_, hd⟩⟩
    · show (s.queue ++ [(⟨s.nextId, k⟩ : Item)]).map Item.id =
        List.range' (m + 1) (s.nextId + 1 - (m + 1))
      rw [List.map_append, hq]
      have h1 : s.nextId + 1 - (m + 1) = (s.nextId - (m + 1)) + 1 := by omega
      rw [h1, List.range'_concat]
      congr 1
      rw [List.map_singleton, List.singleton_inj]
      show s.nextId = m + 1 + 1 * (s.nextId - (m + 1))
      omega
    · show m + 1 ≤ s.nextId + 1
      omega

lemma inv_timer {s : SfState} (h : Inv s) (n : Nat) : Inv (timerFire s n) := by
  obtain ⟨m, halive, hpend, htimers, hsettled, hcheck, hsorted, hcase⟩ := h
  rcases hcase with ⟨hh, hp, hqe, hni, hdlt⟩ | ⟨⟨k0, hh⟩, hp, hq, hn, hd⟩
  · have hstep : timerFire s n = s := by
      unfold timerFire
      rw [htimers, hh]
      rfl
    rw [hstep]
    exact ⟨m, halive, hpend, htimers, hsettled, hcheck, hsorted,
      Or.inl ⟨hh, hp, hqe, hni, hdlt⟩⟩
  · by_cases hmn : m = n
    · subst hmn
      have hfind : s.timers.find? (fun i => i.id = m) = some ⟨m, k0⟩ := by
        rw [htimers, hh]
        simp [List.find?]
      have e1 : s.timers.filter (fun j => ¬ j.id = m) = [] := by
        rw [htimers, hh]
        simp
      have e2 : s.handlers.filter (fun j => ¬ j.id = m) = [] := by
        rw [hh]
        simp
      have hstep : timerFire s m = finishProcessing
          { s with timers := [], handlers := [],
                   log := s.log ++ [Ev.out (timeoutOutcome ⟨m, k0⟩)] } := by
        unfold timerFire
        rw [hfind]
        show finishProcessing
          { s with timers := s.timers.filter (fun j => ¬ j.id = m),
                   handlers := s.handlers.filter (fun j => ¬ j.id = m),
                   log := s.log ++ [Ev.out (timeoutOutcome ⟨m, k0⟩)] } = _
        rw [e1, e2]
      rw [hstep]
      exact inv_after_settle _ halive hpend hsettled hcheck hsorted hq hn hd
        (timeoutOutcome_itemId _)
    · have hfind : s.timers.find? (fun i => i.id = n) = none := by
        rw [htimers, hh]
        simp [List.find?, hmn]
      have hstep : timerFire s n = s := by
        unfold timerFire
        rw [hfind]
      rw [hstep]
      exact ⟨m, halive, hpend, htimers, hsettled, hcheck, hsorted,
        Or.inr ⟨⟨k0, hh⟩, hp, hq, hn, hd⟩⟩

lemma inv_terminal {s : SfState} (h : Inv s) (mv : Option String) (er : EvalResult) :
    Inv (terminalEv s mv er) := by
  obtain ⟨m, halive, hpend, htimers, hsettled, hcheck, hsorted, hcase⟩ := h
  rcases hcase with ⟨hh, hp, hqe, hni, hdlt⟩ | ⟨⟨k0, hh⟩, hp, hq, hn, hd⟩
  · have hstep : terminalEv s mv er = s := by
      unfold terminalEv
      rw [hh]
      rfl
    rw [hstep]
    exact ⟨m, halive, hpend, htimers, hsettled, hcheck, hsorted,
      Or.inl ⟨hh, hp, hqe, hni, hdlt⟩⟩
  · have e1 : s.timers.filter (fun j => ¬ j.id = m) = [] := by
      rw [htimers, hh]
      simp
    have e2 : s.handlers.filter (fun j => ¬ j.id = m) = [] := by
      rw [hh]
      simp
    have hstep : terminalEv s mv er = finishProcessing
        { s with timers := [], handlers := [],
                 log := s.log ++ [Ev.out (terminalOutcome ⟨m, k0⟩ mv er)] } := by
      unfold terminalEv
      rw [hh]
      show fireHandler mv er s ⟨m, k0⟩ = _
      unfold fireHandler
      show finishProcessing
        { s with timers := s.timers.filter (fun j => ¬ j.id = m),
                 handlers := s.handlers.filter (fun j => ¬ j.id = m),
                 log := s.log ++ [Ev.out (terminalOutcome ⟨m, k0⟩ mv er)] } = _
      rw [e1, e2]
    rw [hstep]
    exact inv_after_settle _ halive hpend hsettled hcheck hsorted hq hn hd
      (terminalOutcome_itemId _ _ _)

lemma inv_uciok {s : SfState} (h : Inv s) : Inv (uciokEv s) := by
  obtain ⟨m, halive, hpend, htimers, hsettled, hcheck, hsorted, hcase⟩ := h
  have hstep : uciokEv s = { s with ready := true } := by
    unfold uciokEv
    rw [halive]
    rfl
  rw [hstep]
  exact ⟨m, halive, hpend, htimers, hsettled, hcheck, hsorted, hcase⟩

lemma inv_restart {s : SfState} (h : Inv s) : Inv (engineRestart s) := by
  obtain ⟨m, halive, hpend, htimers, hsettled, hcheck, hsorted, hcase⟩ := h
  have hstep : engineRestart s = s := by
    unfold engineRestart
    rw [hpend]
  rw [hstep]
  exact ⟨m, halive, hpend, htimers, hsettled, hcheck, hsorted, hcase⟩

lemma inv_init : Inv initState := by
  refine ⟨0, rfl, rfl, rfl, ?_, rfl, ?_, Or.inl ⟨rfl, rfl, rfl, rfl, ?_⟩⟩
  · intro i
    simp [settledIds, initState]
  · show List.Sorted (· < ·) ([] : List Nat)
    exact List.sorted_nil
  · intro j hj
    simp [dispatchOrder, initState] at hj

lemma inv_step {s : SfState} (h : Inv s) {a : Act} (ha : a ≠ Act.died) :
    Inv (stepAct s a) := by
  cases a with
  | submit k => exact inv_submit h k
  | uciok => exact inv_uciok h
  | terminal mv er => exact inv_terminal h mv er
  | timer n => exact inv_timer h n
  | died => exact absurd rfl ha
  | restart => exact inv_restart h

lemma inv_foldl (acts : List Act) (s : SfState) (h : Inv s)
    (hno : ∀ a ∈ acts, a ≠ Act.died) : Inv (acts.foldl stepAct s) := by
  induction acts generalizing s with
  | nil => exact h
  | cons a rest ih =>
    exact ih _ (inv_step h (hno a (List.mem_cons_self _ _)))
      (fun b hb => hno b (List.mem_cons_of_mem _ hb))

/-- C1 amended: in every run in which the engine process does not die, the
queue dispatches items in strict submission order and strictly
single-flight — an item is dispatched only after every earlier-submitted
item has completed, timed out, or been flushed.  (After a crash, the
un-cancelled 10-second timer of the item that was in flight can fire after
the restart and trigger a second concurrent dispatch; see the
counterexample.) -/
theorem C1_fifo_single_flight (acts : List Act) (h : Act.died ∉ acts) :
    FifoSingleFlight (runActs acts).log := by
  obtain ⟨m, _, _, _, _, hcheck, hsorted, _⟩ :=
    inv_foldl acts initState inv_init (fun a ha heq => h (heq ▸ ha))
  exact ⟨hcheck, hsorted⟩

/-- A crash-free run exercising dispatch, completion, timeout and
not-ready rejection. -/
def c1GoodTrace : List Act :=
  [Act.submit .bestMoveReq, Act.uciok, Act.submit .evalReq,
   Act.submit .bestMoveReq, Act.terminal none evalTimeoutResult,
   Act.timer 2, Act.submit .topReq]

/-- Witness for C1's amended theorem on a concrete crash-free run. -/
theorem C1_witness :
    Act.died ∉ c1GoodTrace ∧ FifoSingleFlight (runActs c1GoodTrace).log :=
  ⟨by decide, C1_fifo_single_flight c1GoodTrace (by decide)⟩

end Stocklearn
